import Mathlib

/-!
Verification of the multi-factor risk scoring engine of the fire-protect-api
repository (file `main.py`, class `AdvancedScoringSystem`, plus the keyword
extraction used by `search_related_cases`).

Texts are modelled as `List Char` (Python strings are sequences of Unicode
code points, and `len`, slicing and membership agree with that view).

The regular expressions appearing in the source are all plain alternations of
literal strings (for example `殺害|殺す|死ね|…`).  `re.findall(pat, text)` for
such a pattern scans the text left to right; at each position it tries the
alternatives in order, emits the first alternative that matches and resumes
after the match, otherwise advances one character.  `scanAux` below implements
exactly that.  `re.IGNORECASE` is modelled by comparing lower-cased characters;
the only cased characters in the catalog are the ASCII letters of `CO2` and
`LGBT`, for which `Char.toLower` agrees with Python's case-insensitive match.
-/

/-- Lower-case every character of a text (model of `re.IGNORECASE` matching). -/
def lowerList (t : List Char) : List Char := t.map Char.toLower

/-- Test whether alternative `a` matches at the start of `t`, optionally
case-insensitively (`ci`). -/
def altMatch (ci : Bool) (a t : List Char) : Bool :=
  if ci then (lowerList a).isPrefixOf (lowerList t) else a.isPrefixOf t

/-- Try the alternatives of an alternation in order at the current position and
return the matched slice of the text, as Python's `re` alternation does. -/
def tryAlts (ci : Bool) (alts : List (List Char)) (t : List Char) : Option (List Char) :=
  (alts.find? (fun a => altMatch ci a t)).map (fun a => t.take a.length)

/-- Fuel-indexed scanner: one unit of fuel per text position, so `fuel =
t.length` fully scans `t`.  On a match of length `n` the scan resumes `n`
characters further (never less than one; all alternatives in the catalog are
non-empty, so the `max 1` guard is inactive on the actual data). -/
def scanAux (ci : Bool) (alts : List (List Char)) : Nat → List Char → List (List Char)
  | 0, _ => []
  | _ + 1, [] => []
  | fuel + 1, c :: rest =>
    match tryAlts ci alts (c :: rest) with
    | some m => m :: scanAux ci alts fuel (List.drop (max 1 m.length) (c :: rest))
    | none => scanAux ci alts fuel rest

/-- Model of `re.findall(pattern, text)` for a pattern that is an alternation
of the literal strings `alts`: the list of matched slices, in order. -/
def findall (ci : Bool) (alts : List (List Char)) (t : List Char) : List (List Char) :=
  scanAux ci alts t.length t

/-- Model of `len(re.findall(pattern, text))`. -/
def countMatches (ci : Bool) (alts : List (List Char)) (t : List Char) : Nat :=
  (findall ci alts t).length

/-- Convert the alternatives of a catalog pattern to character lists. -/
def pats (p : List String) : List (List Char) := p.map String.toList

/-- Decidable model of Python's substring containment `kw in text`
(case-sensitive, contiguous). -/
def containsSub (kw : List Char) : List Char → Bool
  | [] => kw.isEmpty
  | c :: rest => kw.isPrefixOf (c :: rest) || containsSub kw rest

/-- Model of `keyword in text` for a keyword given as a string literal. -/
def occursIn (kw : String) (t : List Char) : Bool := containsSub kw.toList t

/-- One tier of the pattern catalog (`self.risk_patterns` entries).  The
weights `4.0, 3.0, 2.0, 1.0` of the source are integer-valued doubles; every
product and sum formed from them in `_calculate_content_risk` stays far below
`2^53` for any realistic text, hence is computed exactly by binary64
arithmetic, and `Nat` models it faithfully. -/
structure RiskTier where
  patterns : List (List String)
  weight : Nat
  base_score : Nat

/-- Pattern catalog of `main.py` (`self.risk_patterns`), in declaration
order: extreme (weight 4.0, base 95), high (3.0, 80), medium (2.0, 50),
low (1.0, 20). -/
def risk_patterns : List RiskTier :=
  [⟨[["殺害", "殺す", "死ね", "死ぬ", "殺人", "殺し", "殺して", "殺せ"],
     ["老人", "高齢者", "年寄り", "お年寄り"],
     ["障害者", "障がい者", "身体障害", "知的障害"],
     ["外国人", "移民", "在日", "朝鮮", "中国", "韓国"],
     ["女性", "男性", "男", "女", "性別", "結婚", "妊娠", "LGBT", "ゲイ", "レズ"],
     ["暴力", "暴行", "殴る", "蹴る", "叩く", "痛めつける"],
     ["差別", "偏見", "見下す", "馬鹿", "アホ", "バカ", "クズ", "ゴミ"]], 4, 95⟩,
   ⟨[["クソ", "くそ", "最悪", "ひどい", "ダメ", "だめ", "やばい"],
     ["パクリ", "盗作", "コピー", "真似"],
     ["住所", "電話", "個人情報", "名前", "メール"],
     ["残業", "給料", "労働", "働く", "従業員"],
     ["完璧", "問題ない", "デマ", "嘘", "隠蔽"],
     ["うざい", "うっとうしい", "邪魔", "迷惑"],
     ["消えろ", "消えて", "出て行け", "帰れ"]], 3, 80⟩,
   ⟨[["環境", "地球", "温暖化", "CO2", "エコ"],
     ["税金", "政治", "政府", "国", "社会"],
     ["アニメ", "ゲーム", "趣味", "文化", "遅れ"],
     ["競合", "他社", "ライバル", "対抗"],
     ["宗教", "信仰", "信者", "信教"],
     ["民族", "人種", "肌の色", "出身"]], 2, 50⟩,
   ⟨[["すごい", "素晴らしい", "最高", "良い"],
     ["お客様", "顧客", "ユーザー"],
     ["品質", "サービス", "商品"]], 1, 20⟩]

/-- Model of `_calculate_content_risk`: accumulate
`score += matches * weight * base_score` and `total_matches += matches` over
every tier/pattern pair; default 10 when nothing matched, otherwise
`min(100, int(score / total_matches))`.  `int(score/total)` truncates toward
zero; both operands are non-negative and (for any text of length below
`2^40`) exactly representable, so truncation coincides with `Nat` floor
division. -/
def _calculate_content_risk (t : List Char) : Nat :=
  let acc : Nat × Nat := risk_patterns.foldl (fun acc cfg =>
    cfg.patterns.foldl (fun acc p =>
      let m := countMatches true (pats p) t
      if 0 < m then (acc.1 + m * cfg.weight * cfg.base_score, acc.2 + m) else acc) acc)
    (0, 0)
  if acc.2 = 0 then 10 else min 100 (acc.1 / acc.2)

/-- Legal keyword table of `main.py` (`self.legal_risk_factors`). -/
def legal_risk_factors : List (String × List String) :=
  [("労働基準法", ["残業", "給料", "労働", "働く", "従業員"]),
   ("個人情報保護法", ["住所", "電話", "個人情報", "名前", "メール"]),
   ("差別禁止法", ["女性", "男性", "男", "女", "性別", "結婚", "妊娠", "老人", "高齢者", "障害者", "外国人", "移民"]),
   ("名誉毀損", ["パクリ", "盗作", "コピー", "真似", "卑劣"]),
   ("脅迫罪", ["殺害", "殺す", "死ね", "死ぬ", "殺人", "暴力", "暴行", "殴る", "蹴る"]),
   ("侮辱罪", ["馬鹿", "アホ", "バカ", "クズ", "ゴミ", "うざい", "うっとうしい"])]

/-- Brand keyword table of `main.py` (`self.brand_risk_factors`). -/
def brand_risk_factors : List (String × List String) :=
  [("企業イメージ", ["クソ", "くそ", "最悪", "ひどい", "ダメ", "だめ", "殺害", "殺す", "死ね", "暴力"]),
   ("顧客信頼", ["嘘", "デマ", "隠蔽", "問題ない", "完璧", "差別", "偏見"]),
   ("社会的責任", ["環境", "地球", "温暖化", "CO2", "エコ", "老人", "高齢者", "障害者", "外国人"]),
   ("人権問題", ["差別", "偏見", "見下す", "馬鹿", "アホ", "バカ", "クズ", "ゴミ"])]

/-- Social keyword table of `main.py` (`self.social_risk_factors`). -/
def social_risk_factors : List (String × List String) :=
  [("炎上拡散", ["やばい", "最悪", "ひどい", "問題", "殺害", "殺す", "死ね", "暴力"]),
   ("批判集中", ["差別", "誹謗", "中傷", "攻撃", "老人", "高齢者", "障害者", "外国人"]),
   ("社会問題", ["税金", "政治", "政府", "国", "社会", "差別", "偏見", "人権"]),
   ("人権侵害", ["老人", "高齢者", "障害者", "外国人", "移民", "女性", "男性", "LGBT"])]

/-- Shared loop shape of `_calculate_legal_risk`, `_calculate_brand_risk` and
`_calculate_social_risk`: for every `(factor, keyword)` pair of the table whose
keyword occurs in the text, add the fixed increment. -/
def keywordScore (table : List (String × List String)) (inc : Nat) (t : List Char) : Nat :=
  table.foldl (fun s f => f.2.foldl (fun s kw => if occursIn kw t then s + inc else s) s) 0

/-- Model of `_calculate_legal_risk`: +20 per matching pair, clamped at 100. -/
def _calculate_legal_risk (t : List Char) : Nat :=
  min 100 (keywordScore legal_risk_factors 20 t)

/-- Model of `_calculate_brand_risk`: +15 per matching pair, clamped at 100. -/
def _calculate_brand_risk (t : List Char) : Nat :=
  min 100 (keywordScore brand_risk_factors 15 t)

/-- Model of `_calculate_social_risk`: +10 per matching pair, clamped at 100. -/
def _calculate_social_risk (t : List Char) : Nat :=
  min 100 (keywordScore social_risk_factors 10 t)

/-- Category table of `_identify_category` in `main.py`, in dict declaration
order (Python 3.7+ dicts iterate in insertion order). -/
def categoriesTable : List (String × List String) :=
  [("極めて危険な表現", ["殺害", "殺す", "死ね", "死ぬ", "殺人", "暴力", "暴行"]),
   ("差別的表現", ["女性", "男性", "男", "女", "性別", "結婚", "妊娠", "老人", "高齢者", "障害者", "外国人", "移民", "LGBT"]),
   ("誹謗中傷", ["パクリ", "盗作", "コピー", "真似", "卑劣", "馬鹿", "アホ", "バカ", "クズ", "ゴミ"]),
   ("個人情報漏洩", ["住所", "電話", "個人情報", "名前", "メール"]),
   ("労働問題", ["残業", "給料", "労働", "働く", "従業員"]),
   ("不適切な表現", ["クソ", "くそ", "最悪", "ひどい", "ダメ", "だめ", "うざい", "うっとうしい"]),
   ("情報隠蔽", ["完璧", "問題ない", "デマ", "嘘", "隠蔽"]),
   ("社会的責任の欠如", ["環境", "地球", "温暖化", "CO2", "エコ"]),
   ("社会問題への偏見", ["税金", "政治", "政府", "国", "社会"]),
   ("趣味嗜好への差別", ["アニメ", "ゲーム", "趣味", "文化", "遅れ"]),
   ("人権侵害", ["差別", "偏見", "見下す", "老人", "高齢者", "障害者", "外国人"])]

/-- Per-category hit count of `_identify_category`: each keyword occurring in
the text contributes 1. -/
def categoryScore (kws : List String) (t : List Char) : Nat :=
  kws.foldl (fun s kw => if occursIn kw t then s + 1 else s) 0

/-- Scored category list, in table order. -/
def scoresList (t : List Char) : List (String × Nat) :=
  categoriesTable.map (fun ck => (ck.1, categoryScore ck.2 t))

/-- Fold performed by Python's `max(..., key=...)` over a non-empty sequence:
the current best is replaced only by a strictly greater candidate, so the
first maximal element wins. -/
def pymaxFold (x : String × Nat) (xs : List (String × Nat)) : String × Nat :=
  xs.foldl (fun best p => if best.2 < p.2 then p else best) x

/-- Model of `_identify_category`: `max(category_scores, key=category_scores.get)`
returns the first key attaining the maximal score in iteration (= insertion)
order.  The `"その他"` branch corresponds to `category_scores` being empty. -/
def _identify_category (t : List Char) : String :=
  match scoresList t with
  | [] => "その他"
  | x :: xs => (pymaxFold x xs).1

/-- Total pattern-match count over the whole catalog, as summed by
`_calculate_confidence`. -/
def keywordCountCalc (t : List Char) : Nat :=
  risk_patterns.foldl (fun n cfg =>
    cfg.patterns.foldl (fun n p => n + countMatches true (pats p) t) n) 0

/-- Model of Python's `round(x, 2)` on the exact rational value: round
`x * 100` to the nearest integer and divide by 100.  (CPython rounds the
nearest-double approximation with ties to even; the two agree on every value
this development evaluates, and the `[0, 1]` bounds are independent of the
tie rule.) -/
def round2 (q : ℚ) : ℚ := (round (q * 100) : ℚ) / 100

/-- Model of `_calculate_confidence`:
`round((min(1, len(text)/100) + min(1, keyword_count/5)) / 2, 2)`. -/
def _calculate_confidence (t : List Char) : ℚ :=
  let length_factor : ℚ := min 1 ((t.length : ℚ) / 100)
  let keyword_factor : ℚ := min 1 ((keywordCountCalc t : ℚ) / 5)
  round2 ((length_factor + keyword_factor) / 2)

/-!
Model of `_calculate_overall_score`.  The source computes
`int(sum(score * weight for score, weight in zip([c,l,b,s], [0.4,0.3,0.2,0.1])))`
in IEEE-754 binary64 arithmetic.  The literals 0.4, 0.3, 0.2, 0.1 are not
exactly representable; the doubles actually used are
`0.4 = 3602879701896397/2^53`, `0.3 = 5404319552844595/2^54`,
`0.2 = 3602879701896397/2^54`, `0.1 = 3602879701896397/2^55`.
Every value arising in the computation is a non-negative binary64 number below
`2^7`, hence an integer multiple of `2^-57`; we represent the value `v` by the
natural number `V = v * 2^57` and perform the binary64 operations exactly:
an operation computes the exact rational result and rounds it to 53
significant bits (round to nearest, ties to even).  This integer model was
checked to agree with CPython's float evaluation on every input in
`[0,100]^4`.
-/

/-- Granularity exponent: for a scaled value `V = v * 2^57` with
`2^e ≤ v < 2^(e+1)`, binary64 numbers in that binade are multiples of
`2^(e-52)`, i.e. of `2^k` scaled units with `k = e + 5`.  Correct for all
`V < 2^64` (`v < 128`), which covers every value this computation produces;
below `2^53` (`v < 2^-4`, never produced here except `v = 0`) rounding
degenerates to the identity. -/
def binadeK (V : Nat) : Nat :=
  if 2 ^ 63 ≤ V then 11 else if 2 ^ 62 ≤ V then 10 else if 2 ^ 61 ≤ V then 9
  else if 2 ^ 60 ≤ V then 8 else if 2 ^ 59 ≤ V then 7 else if 2 ^ 58 ≤ V then 6
  else if 2 ^ 57 ≤ V then 5 else if 2 ^ 56 ≤ V then 4 else if 2 ^ 55 ≤ V then 3
  else if 2 ^ 54 ≤ V then 2 else if 2 ^ 53 ≤ V then 1 else 0

/-- Round the scaled value `V` to a multiple of `2^k` (quotient `V / 2^k`,
remainder `V % 2^k`, half point `2^(k-1)`): round to nearest, on a tie to the
even multiple (IEEE-754 default rounding). -/
def rneK (V k : Nat) : Nat :=
  if V % 2 ^ k < 2 ^ (k - 1) then V / 2 ^ k * 2 ^ k
  else if 2 ^ (k - 1) < V % 2 ^ k then (V / 2 ^ k + 1) * 2 ^ k
  else if (V / 2 ^ k) % 2 = 0 then V / 2 ^ k * 2 ^ k
  else (V / 2 ^ k + 1) * 2 ^ k

/-- Round an exact scaled result to the nearest representable binary64 value
(53-bit significand, ties to even). -/
def roundD (V : Nat) : Nat := rneK V (binadeK V)

/-- Scaled double `0.4 * 2^57` (`= 3602879701896397 * 16`). -/
def w04s : Nat := 57646075230342352

/-- Scaled double `0.3 * 2^57` (`= 5404319552844595 * 8`). -/
def w03s : Nat := 43234556422756760

/-- Scaled double `0.2 * 2^57` (`= 3602879701896397 * 8`). -/
def w02s : Nat := 28823037615171176

/-- Scaled double `0.1 * 2^57` (`= 3602879701896397 * 4`). -/
def w01s : Nat := 14411518807585588

/-- Exact scaled value of the binary64 left-to-right evaluation of
`0 + c*0.4 + l*0.3 + b*0.2 + s*0.1` (each product and each running sum
rounded, as `sum(...)` does). -/
def overallT4 (content legal brand social : Nat) : Nat :=
  roundD (roundD (roundD (roundD (0 + roundD (content * w04s))
    + roundD (legal * w03s)) + roundD (brand * w02s)) + roundD (social * w01s))

/-- Model of `_calculate_overall_score`: `int()` truncates toward zero, which
on the non-negative `t4` is floor, i.e. division of the scaled value by
`2^57 = 144115188075855872`. -/
def _calculate_overall_score (content legal brand social : Nat) : Nat :=
  overallT4 content legal brand social / 144115188075855872

/-- Result record of `analyze_text` (the `RiskScore` Pydantic model). -/
structure RiskScore where
  overall_score : Nat
  content_risk : Nat
  legal_risk : Nat
  brand_risk : Nat
  social_risk : Nat
  category : String
  confidence : ℚ

/-- Model of `AdvancedScoringSystem.analyze_text`. -/
def analyze_text (t : List Char) : RiskScore :=
  let content_risk := _calculate_content_risk t
  let legal_risk := _calculate_legal_risk t
  let brand_risk := _calculate_brand_risk t
  let social_risk := _calculate_social_risk t
  { overall_score := _calculate_overall_score content_risk legal_risk brand_risk social_risk
    content_risk := content_risk
    legal_risk := legal_risk
    brand_risk := brand_risk
    social_risk := social_risk
    category := _identify_category t
    confidence := _calculate_confidence t }

/-- Model of `get_recommendations`: each threshold rule appends its advisory
string, in source order. -/
def get_recommendations (rs : RiskScore) : List String :=
  (if 60 ≤ rs.legal_risk then ["法的リスクが高いため、法務部門との相談を推奨"] else []) ++
  (if 60 ≤ rs.brand_risk then ["ブランドイメージへの影響が大きいため、広報戦略の見直しが必要"] else []) ++
  (if 60 ≤ rs.social_risk then ["社会的影響が予想されるため、SNS監視体制の強化を推奨"] else []) ++
  (if 80 ≤ rs.content_risk then ["コンテンツの全面的な見直しが必要"] else []) ++
  (if rs.confidence < 1 / 2 then ["分析の信頼度が低いため、より詳細な分析を推奨"] else [])

/-- Pattern-to-category table of `extract_keywords_advanced`
(`high_risk_patterns`), in dict order; matched with `re.IGNORECASE`. -/
def high_risk_patterns : List (List String × String) :=
  [(["クソ", "くそ", "最悪", "ひどい", "ダメ", "だめ", "やばい"], "不適切な表現"),
   (["女性", "男性", "男", "女", "性別", "結婚", "妊娠"], "差別的表現"),
   (["パクリ", "盗作", "コピー", "真似"], "誹謗中傷"),
   (["住所", "電話", "個人情報", "名前", "メール"], "個人情報漏洩"),
   (["残業", "給料", "労働", "働く", "従業員"], "労働問題"),
   (["環境", "地球", "温暖化", "CO2", "エコ"], "社会的責任"),
   (["税金", "政治", "政府", "国", "社会"], "社会問題"),
   (["アニメ", "ゲーム", "趣味", "文化", "遅れ"], "趣味嗜好"),
   (["競合", "他社", "ライバル", "対抗"], "競合関係"),
   (["完璧", "問題ない", "デマ", "嘘", "隠蔽"], "情報隠蔽")]

/-- Emotion-expression pattern list of `extract_keywords_advanced` (matched
without `re.IGNORECASE`). -/
def emotion_patterns : List (List String) :=
  [["怒", "悲", "喜", "驚", "恐", "嫌", "愛", "恨", "妬", "嫉"],
   ["すごい", "やばい", "ひどい", "最悪", "最高", "素晴らしい"],
   ["絶対", "絶対に", "絶対だ", "絶対です"],
   ["絶対に", "絶対", "絶対だ", "絶対です"]]

/-- Negation-expression pattern list of `extract_keywords_advanced`. -/
def negation_patterns : List (List String) :=
  [["ない", "無い", "だめ", "ダメ", "禁止", "禁止する"],
   ["やめて", "やめろ", "やめるな"],
   ["買うな", "買わない", "買わないで"]]

/-- Character class `[ぁ-んァ-ヶ一-龯]` of the word-extraction regex. -/
def japaneseChar (c : Char) : Bool :=
  (0x3041 ≤ c.toNat && c.toNat ≤ 0x3093) ||
  (0x30A1 ≤ c.toNat && c.toNat ≤ 0x30F6) ||
  (0x4E00 ≤ c.toNat && c.toNat ≤ 0x9FAF)

/-- Maximal runs of `japaneseChar` characters of length at least 2, in order:
the matches of the greedy regex `[ぁ-んァ-ヶ一-龯]{2,}`.  `acc` holds the
current run reversed. -/
def jpRunsAux (acc : List Char) : List Char → List (List Char)
  | [] => if 2 ≤ acc.length then [acc.reverse] else []
  | c :: rest =>
    if japaneseChar c then jpRunsAux (c :: acc) rest
    else (if 2 ≤ acc.length then [acc.reverse] else []) ++ jpRunsAux [] rest

/-- Model of `re.findall(r'[ぁ-んァ-ヶ一-龯]{2,}', text)`. -/
def extractWords (t : List Char) : List (List Char) := jpRunsAux [] t

/-- Raw keyword list accumulated by `extract_keywords_advanced` before
deduplication: per category pattern its matches then (unconditionally) its
category label, then emotion matches, negation matches, and finally the
2+-character Japanese words. -/
def rawKeywords (t : List Char) : List String :=
  let kws1 := high_risk_patterns.foldl
    (fun ks pc => ks ++ ((findall true (pats pc.1) t).map String.mk ++ [pc.2])) []
  let kws2 := emotion_patterns.foldl
    (fun ks p => ks ++ (findall false (pats p) t).map String.mk) kws1
  let kws3 := negation_patterns.foldl
    (fun ks p => ks ++ (findall false (pats p) t).map String.mk) kws2
  kws3 ++ ((extractWords t).filter (fun w => 2 ≤ w.length)).map String.mk

/-- High-signal substrings used to partition keywords into priority/normal. -/
def riskMarkers : List String :=
  ["不適切", "差別", "誹謗", "個人情報", "労働", "社会", "隠蔽"]

/-- Priority test: the keyword contains one of the risk markers. -/
def isPriorityKw (kw : String) : Bool :=
  riskMarkers.any (fun r => containsSub r.toList kw.toList)

/-- Final selection of `extract_keywords_advanced` applied to the
deduplicated keyword list `u`: first 10 priority keywords, then first 5
normal keywords, truncated to 15.  The source deduplicates with
`list(set(keywords))`, whose enumeration order CPython leaves unspecified;
the theorems below therefore quantify over every ordering `u` of the
deduplicated keywords. -/
def selectKeywords (u : List String) : List String :=
  ((u.filter isPriorityKw).take 10 ++ (u.filter (fun kw => !isPriorityKw kw)).take 5).take 15

/-- Model of `extract_keywords_advanced` with `List.dedup` standing in for one
particular enumeration order of `set(keywords)`. -/
def extract_keywords_advanced (t : List Char) : List String :=
  selectKeywords (rawKeywords t).dedup

/-- Condition list built by `search_related_cases`: one `LIKE` clause per
extracted keyword. -/
def searchConditions (kws : List String) : List String :=
  kws.map (fun _ => "(title LIKE ? OR incident_text LIKE ? OR cause_category LIKE ? OR reasoning_text LIKE ?)")

/-- Branch selector of `search_related_cases`: the unfiltered
most-recent-incidents query is used exactly when `search_conditions` is
empty. -/
def search_uses_fallback (kws : List String) : Bool :=
  (searchConditions kws).isEmpty

/-!
Claim-side reformulations and general lemmas.
-/

/-- Number of `(factor, keyword)` pairs of a keyword table whose keyword
occurs in the text. -/
def pairCount (table : List (String × List String)) (t : List Char) : Nat :=
  (table.map (fun f => f.2.countP (fun kw => occursIn kw t))).sum

/-- Claim-side weighted score sum of the content-risk calculator:
`Σ matches * weight * base_score` over all tier/pattern pairs. -/
def contentScoreSum (t : List Char) : Nat :=
  (risk_patterns.map (fun cfg =>
    ((cfg.patterns.map (fun p => countMatches true (pats p) t * cfg.weight * cfg.base_score)).sum))).sum

/-- Claim-side total match count of the content-risk calculator. -/
def contentMatchTotal (t : List Char) : Nat :=
  (risk_patterns.map (fun cfg =>
    ((cfg.patterns.map (fun p => countMatches true (pats p) t)).sum))).sum

theorem keywordFold_eq (t : List Char) (inc : Nat) (kws : List String) :
    ∀ s0 : Nat, kws.foldl (fun s kw => if occursIn kw t then s + inc else s) s0
      = s0 + inc * kws.countP (fun kw => occursIn kw t) := by
  induction kws with
  | nil => intro s0; simp
  | cons a l ih =>
    intro s0
    simp only [List.foldl_cons, List.countP_cons]
    cases h : occursIn a t with
    | true => rw [if_pos rfl, ih]; simp [Nat.mul_add]; ring
    | false => rw [if_neg (by simp [h]), ih]; simp

theorem keywordScore_eq (table : List (String × List String)) (inc : Nat) (t : List Char) :
    keywordScore table inc t = inc * pairCount table t := by
  unfold keywordScore pairCount
  induction table with
  | nil => simp
  | cons f rest ih =>
    simp only [List.foldl_cons, List.map_cons, List.sum_cons]
    rw [show (rest.foldl (fun s f => f.2.foldl (fun s kw => if occursIn kw t then s + inc else s) s)
        (List.foldl (fun s kw => if occursIn kw t then s + inc else s) 0 f.2))
      = (rest.foldl (fun s f => f.2.foldl (fun s kw => if occursIn kw t then s + inc else s) s) 0)
        + List.foldl (fun s kw => if occursIn kw t then s + inc else s) 0 f.2 from ?_]
    · rw [ih, keywordFold_eq]; ring
    · -- the outer fold is a sum of per-factor contributions: shift the seed out
      have shift : ∀ (tb : List (String × List String)) (s0 : Nat),
          tb.foldl (fun s f => f.2.foldl (fun s kw => if occursIn kw t then s + inc else s) s) s0
          = s0 + tb.foldl (fun s f => f.2.foldl (fun s kw => if occursIn kw t then s + inc else s) s) 0 := by
        intro tb
        induction tb with
        | nil => intro s0; simp
        | cons g gs ihg =>
          intro s0
          simp only [List.foldl_cons]
          rw [keywordFold_eq, keywordFold_eq, ihg, ihg (0 + inc * _)]
          ring
      rw [shift, keywordFold_eq]
      ring

theorem pymaxFold_cons (x y : String × Nat) (ys : List (String × Nat)) :
    pymaxFold x (y :: ys) = pymaxFold (if x.2 < y.2 then y else x) ys := by
  unfold pymaxFold
  rw [List.foldl_cons]

theorem pymaxFold_mem : ∀ (xs : List (String × Nat)) (x : String × Nat),
    pymaxFold x xs ∈ x :: xs := by
  intro xs
  induction xs with
  | nil => intro x; simp [pymaxFold]
  | cons y ys ih =>
    intro x
    rw [pymaxFold_cons]
    by_cases h : x.2 < y.2
    · rw [if_pos h]
      exact List.mem_cons_of_mem x (ih y)
    · rw [if_neg h]
      rcases List.mem_cons.mp (ih x) with h1 | h1
      · rw [h1]; exact List.mem_cons_self _ _
      · exact List.mem_cons_of_mem x (List.mem_cons_of_mem y h1)

theorem pymaxFold_le : ∀ (xs : List (String × Nat)) (x : String × Nat),
    x.2 ≤ (pymaxFold x xs).2 := by
  intro xs
  induction xs with
  | nil => intro x; simp [pymaxFold]
  | cons y ys ih =>
    intro x
    rw [pymaxFold_cons]
    by_cases h : x.2 < y.2
    · rw [if_pos h]
      exact le_trans (le_of_lt h) (ih y)
    · rw [if_neg h]
      exact ih x

theorem pymaxFold_first : ∀ (xs : List (String × Nat)) (x : String × Nat),
    (x :: xs).find? (fun p => decide ((pymaxFold x xs).2 ≤ p.2)) = some (pymaxFold x xs) := by
  intro xs
  induction xs with
  | nil =>
    intro x
    rw [List.find?_cons_of_pos _ (by simp [pymaxFold])]
    simp [pymaxFold]
  | cons y ys ih =>
    intro x
    rw [pymaxFold_cons]
    by_cases h : x.2 < y.2
    · rw [if_pos h]
      have hy : y.2 ≤ (pymaxFold y ys).2 := pymaxFold_le ys y
      have hx : ¬ ((pymaxFold y ys).2 ≤ x.2) := fun hc =>
        absurd (lt_of_lt_of_le h (le_trans hy hc)) (lt_irrefl _)
      rw [List.find?_cons_of_neg _ (by simpa using hx)]
      exact ih y
    · rw [if_neg h]
      have hyx : y.2 ≤ x.2 := le_of_not_lt h
      by_cases hx : (pymaxFold x ys).2 ≤ x.2
      · have hxx : x = pymaxFold x ys := by
          have hfirst := ih x
          rw [List.find?_cons_of_pos _ (by simpa using hx)] at hfirst
          exact Option.some.inj hfirst
        rw [List.find?_cons_of_pos _ (by simpa using hx)]
        rw [← hxx]
      · have hyn : ¬ ((pymaxFold x ys).2 ≤ y.2) := fun hc => hx (le_trans hc hyx)
        rw [List.find?_cons_of_neg _ (by simpa using hx),
          List.find?_cons_of_neg _ (by simpa using hyn)]
        have hfirst := ih x
        rw [List.find?_cons_of_neg _ (by simpa using hx)] at hfirst
        exact hfirst

theorem containsSub_true_iff (kw : List Char) : ∀ t : List Char,
    containsSub kw t = true ↔ kw <:+: t := by
  intro t
  induction t with
  | nil => simp [containsSub, List.isEmpty_iff]
  | cons c rest ih =>
    simp only [containsSub, Bool.or_eq_true, List.isPrefixOf_iff_prefix, ih,
      List.infix_cons_iff]

theorem occursIn_append (kw : String) (t x : List Char) (h : occursIn kw t = true) :
    occursIn kw (t ++ x) = true := by
  unfold occursIn at *
  rw [containsSub_true_iff] at *
  exact h.trans ⟨[], x, by simp⟩

theorem scanAux_nonempty (ci : Bool) (alts : List (List Char)) :
    ∀ (fuel : Nat) (t : List Char), t.length ≤ fuel →
    (∃ u v, t = u ++ v ∧ ∃ a ∈ alts, a ≠ [] ∧ altMatch ci a v = true) →
    1 ≤ (scanAux ci alts fuel t).length := by
  intro fuel
  induction fuel with
  | zero =>
    intro t hlen hmatch
    exfalso
    have ht : t = [] := List.length_eq_zero.mp (Nat.le_zero.mp hlen)
    rcases hmatch with ⟨u, v, huv, a, _, hne, hm⟩
    have hv : v = [] := by
      have := congrArg List.length huv
      simp [ht] at this
      exact List.length_eq_zero.mp (by omega)
    rcases List.exists_cons_of_ne_nil hne with ⟨b, bs, rfl⟩
    cases ci <;> simp [altMatch, hv, lowerList, List.isPrefixOf] at hm
  | succ fuel ih =>
    intro t hlen hmatch
    match t with
    | [] =>
      exfalso
      rcases hmatch with ⟨u, v, huv, a, _, hne, hm⟩
      have hv : v = [] := (List.append_eq_nil.mp huv.symm).2
      rcases List.exists_cons_of_ne_nil hne with ⟨b, bs, rfl⟩
      cases ci <;> simp [altMatch, hv, lowerList, List.isPrefixOf] at hm
    | c :: rest =>
      cases htry : tryAlts ci alts (c :: rest) with
      | some m => simp [scanAux, htry]
      | none =>
        have hall : ∀ a ∈ alts, altMatch ci a (c :: rest) = false := by
          intro a ha
          cases hf : alts.find? (fun a => altMatch ci a (c :: rest)) with
          | some b => simp [tryAlts, hf] at htry
          | none =>
            have := List.find?_eq_none.mp hf a ha
            simpa using this
        rcases hmatch with ⟨u, v, huv, a, hmem, hne, hm⟩
        match u, huv with
        | [], huv =>
          exfalso
          rw [List.nil_append] at huv
          rw [← huv] at hm
          rw [hall a hmem] at hm
          exact Bool.false_ne_true hm
        | d :: u2, huv =>
          have hrest : rest = u2 ++ v := by
            have := huv
            simp only [List.cons_append] at this
            exact (List.cons.injEq _ _ _ _ ▸ this).2
          simp only [scanAux, htry]
          apply ih rest _ ⟨u2, v, hrest, a, hmem, hne, hm⟩
          have : (c :: rest).length ≤ fuel + 1 := hlen
          simp only [List.length_cons] at this
          omega

set_option maxHeartbeats 1000000 in
theorem binadeK_le (V : Nat) : binadeK V ≤ 11 := by
  unfold binadeK
  split_ifs <;> omega

theorem rneK_close (V k : Nat) (hk : k ≤ 11) : rneK V k ≤ V + 2048 ∧ V ≤ rneK V k + 2048 := by
  have hp : (2 : Nat) ^ k ≤ 2048 := by
    calc (2 : Nat) ^ k ≤ 2 ^ 11 := Nat.pow_le_pow_right (by norm_num) hk
      _ = 2048 := by norm_num
  have hpos : 0 < (2 : Nat) ^ k := pow_pos (by norm_num) k
  have hdm : 2 ^ k * (V / 2 ^ k) + V % 2 ^ k = V := Nat.div_add_mod V (2 ^ k)
  have hmod : V % 2 ^ k < 2 ^ k := Nat.mod_lt V hpos
  have e1 : (V / 2 ^ k + 1) * 2 ^ k = 2 ^ k * (V / 2 ^ k) + 2 ^ k := by ring
  have e2 : V / 2 ^ k * 2 ^ k = 2 ^ k * (V / 2 ^ k) := by ring
  unfold rneK
  split_ifs <;> omega

theorem roundD_close (V : Nat) : roundD V ≤ V + 2048 ∧ V ≤ roundD V + 2048 := by
  unfold roundD
  exact rneK_close V (binadeK V) (binadeK_le V)

theorem overallT4_close (c l b s : Nat) (hc : c ≤ 100) (hl : l ≤ 100) (hb : b ≤ 100)
    (hs : s ≤ 100) :
    10 * overallT4 c l b s ≤ (4 * c + 3 * l + 2 * b + s) * 144115188075855872 + 327680 ∧
    (4 * c + 3 * l + 2 * b + s) * 144115188075855872 ≤ 10 * overallT4 c l b s + 327680 := by
  unfold overallT4 w04s w03s w02s w01s
  have r1 := roundD_close (c * 57646075230342352)
  have r2 := roundD_close (l * 43234556422756760)
  have r3 := roundD_close (b * 28823037615171176)
  have r4 := roundD_close (s * 14411518807585588)
  have r5 := roundD_close (0 + roundD (c * 57646075230342352))
  have r6 := roundD_close (roundD (0 + roundD (c * 57646075230342352)) +
    roundD (l * 43234556422756760))
  have r7 := roundD_close (roundD (roundD (0 + roundD (c * 57646075230342352)) +
    roundD (l * 43234556422756760)) + roundD (b * 28823037615171176))
  have r8 := roundD_close (roundD (roundD (roundD (0 + roundD (c * 57646075230342352)) +
    roundD (l * 43234556422756760)) + roundD (b * 28823037615171176)) +
    roundD (s * 14411518807585588))
  omega

theorem content_inner_fold (t : List Char) (w b : Nat) :
    ∀ (ps : List (List String)) (acc : Nat × Nat),
    ps.foldl (fun acc p =>
      let m := countMatches true (pats p) t
      if 0 < m then (acc.1 + m * w * b, acc.2 + m) else acc) acc
    = (acc.1 + (ps.map (fun p => countMatches true (pats p) t * w * b)).sum,
       acc.2 + (ps.map (fun p => countMatches true (pats p) t)).sum) := by
  intro ps
  induction ps with
  | nil => intro acc; simp
  | cons p ps ih =>
    intro acc
    simp only [List.foldl_cons, List.map_cons, List.sum_cons]
    by_cases hm : 0 < countMatches true (pats p) t
    · simp only [if_pos hm, ih, Nat.add_assoc]
    · have h0 : countMatches true (pats p) t = 0 := Nat.eq_zero_of_not_pos hm
      simp only [if_neg hm, ih, h0]
      simp

theorem content_outer_fold (t : List Char) :
    ∀ (tiers : List RiskTier) (acc : Nat × Nat),
    tiers.foldl (fun acc cfg =>
      cfg.patterns.foldl (fun acc p =>
        let m := countMatches true (pats p) t
        if 0 < m then (acc.1 + m * cfg.weight * cfg.base_score, acc.2 + m) else acc) acc) acc
    = (acc.1 + (tiers.map (fun cfg =>
        ((cfg.patterns.map (fun p => countMatches true (pats p) t * cfg.weight * cfg.base_score)).sum))).sum,
       acc.2 + (tiers.map (fun cfg =>
        ((cfg.patterns.map (fun p => countMatches true (pats p) t)).sum))).sum) := by
  intro tiers
  induction tiers with
  | nil => intro acc; simp
  | cons cfg tiers ih =>
    intro acc
    simp only [List.foldl_cons, List.map_cons, List.sum_cons]
    rw [content_inner_fold, ih]
    simp [Nat.add_assoc]

theorem round2_bounds (q : ℚ) (h0 : 0 ≤ q) (h1 : q ≤ 1) :
    0 ≤ round2 q ∧ round2 q ≤ 1 := by
  unfold round2
  have hlow : (0 : ℤ) ≤ round (q * 100) := by
    rw [round_eq]
    have : (0 : ℚ) ≤ q * 100 + 1 / 2 := by nlinarith
    exact Int.le_floor.mpr (by exact_mod_cast this)
  have hhigh : round (q * 100) ≤ 100 := by
    rw [round_eq]
    have : q * 100 + 1 / 2 < 100 + 1 := by nlinarith
    exact Int.floor_le_iff.mpr (by exact_mod_cast this)
  constructor
  · apply div_nonneg _ (by norm_num)
    exact_mod_cast hlow
  · rw [div_le_one (by norm_num)]
    exact_mod_cast hhigh

theorem confidence_bounds (t : List Char) :
    0 ≤ _calculate_confidence t ∧ _calculate_confidence t ≤ 1 := by
  unfold _calculate_confidence
  apply round2_bounds
  · have h1 : (0 : ℚ) ≤ min 1 ((t.length : ℚ) / 100) :=
      le_min (by norm_num) (by positivity)
    have h2 : (0 : ℚ) ≤ min 1 ((keywordCountCalc t : ℚ) / 5) :=
      le_min (by norm_num) (by positivity)
    linarith
  · have h1 : min 1 ((t.length : ℚ) / 100) ≤ 1 := min_le_left _ _
    have h2 : min 1 ((keywordCountCalc t : ℚ) / 5) ≤ 1 := min_le_left _ _
    linarith

theorem mem_foldl_append {α β : Type} (f : α → List β) (b : β) :
    ∀ (l : List α) (ks0 : List β), b ∈ ks0 → b ∈ l.foldl (fun ks x => ks ++ f x) ks0 := by
  intro l
  induction l with
  | nil => intro ks0 h; simpa using h
  | cons y l ih =>
    intro ks0 h
    simp only [List.foldl_cons]
    exact ih _ (List.mem_append_left _ h)

theorem mem_foldl_append_of {α β : Type} (f : α → List β) (x : α) (b : β) (hb : b ∈ f x) :
    ∀ (l : List α) (ks0 : List β), x ∈ l → b ∈ l.foldl (fun ks x => ks ++ f x) ks0 := by
  intro l
  induction l with
  | nil => intro ks0 h; simp at h
  | cons y l ih =>
    intro ks0 h
    simp only [List.foldl_cons]
    rcases List.mem_cons.mp h with h1 | h1
    · exact mem_foldl_append f b l _ (List.mem_append_right _ (h1 ▸ hb))
    · exact ih _ h1

theorem sabetsu_mem_raw (t : List Char) : ("差別的表現" : String) ∈ rawKeywords t := by
  unfold rawKeywords
  simp only []
  apply List.mem_append_left
  apply mem_foldl_append
  apply mem_foldl_append
  apply mem_foldl_append_of
    (f := fun pc => (findall true (pats pc.1) t).map String.mk ++ [pc.2])
    (x := (["女性", "男性", "男", "女", "性別", "結婚", "妊娠"], "差別的表現"))
  · exact List.mem_append_right _ (List.mem_singleton.mpr rfl)
  · unfold high_risk_patterns
    exact List.mem_cons_of_mem _ (List.mem_cons_self _ _)

theorem pymaxFold_is_max : ∀ (xs : List (String × Nat)) (x : String × Nat),
    ∀ q ∈ x :: xs, q.2 ≤ (pymaxFold x xs).2 := by
  intro xs
  induction xs with
  | nil =>
    intro x q hq
    rcases List.mem_cons.mp hq with h | h
    · rw [h]; simp [pymaxFold]
    · simp at h
  | cons y ys ih =>
    intro x q hq
    rw [pymaxFold_cons]
    by_cases h : x.2 < y.2
    · rw [if_pos h]
      rcases List.mem_cons.mp hq with h1 | h1
      · rw [h1]; exact le_trans (le_of_lt h) (pymaxFold_le ys y)
      · exact ih y q h1
    · rw [if_neg h]
      rcases List.mem_cons.mp hq with h1 | h1
      · rw [h1]; exact pymaxFold_le ys x
      · rcases List.mem_cons.mp h1 with h2 | h2
        · rw [h2]; exact le_trans (le_of_not_lt h) (pymaxFold_le ys x)
        · exact ih x q (List.mem_cons_of_mem _ h2)

theorem pymaxFold_of_all_le : ∀ (xs : List (String × Nat)) (x : String × Nat),
    (∀ p ∈ xs, p.2 ≤ x.2) → pymaxFold x xs = x := by
  intro xs
  induction xs with
  | nil => intro x _; simp [pymaxFold]
  | cons y ys ih =>
    intro x h
    rw [pymaxFold_cons, if_neg (not_lt_of_le (h y (List.mem_cons_self _ _)))]
    exact ih x (fun p hp => h p (List.mem_cons_of_mem _ hp))

theorem find?_congr_pred {α : Type} (p q : α → Bool) :
    ∀ l : List α, (∀ a ∈ l, p a = q a) → l.find? p = l.find? q := by
  intro l
  induction l with
  | nil => intro _; rfl
  | cons a l ih =>
    intro h
    have ha := h a (List.mem_cons_self _ _)
    cases hp : p a with
    | true =>
      rw [List.find?_cons_of_pos _ hp, List.find?_cons_of_pos _ (ha ▸ hp)]
    | false =>
      rw [List.find?_cons_of_neg _ (by simp [hp]), List.find?_cons_of_neg _ (by simp [← ha, hp]),
        ih (fun b hb => h b (List.mem_cons_of_mem _ hb))]

theorem keywordScore_append_le (table : List (String × List String)) (inc : Nat)
    (t x : List Char) : keywordScore table inc t ≤ keywordScore table inc (t ++ x) := by
  rw [keywordScore_eq, keywordScore_eq]
  apply Nat.mul_le_mul_left
  unfold pairCount
  apply List.sum_le_sum
  intro f _
  exact List.countP_mono_left (fun kw _ h => occursIn_append kw t x h)

theorem content_risk_le_100 (t : List Char) : _calculate_content_risk t ≤ 100 := by
  simp only [_calculate_content_risk]
  split
  · norm_num
  · exact min_le_left _ _

theorem legal_risk_le_100 (t : List Char) : _calculate_legal_risk t ≤ 100 :=
  min_le_left _ _

theorem brand_risk_le_100 (t : List Char) : _calculate_brand_risk t ≤ 100 :=
  min_le_left _ _

theorem social_risk_le_100 (t : List Char) : _calculate_social_risk t ≤ 100 :=
  min_le_left _ _

theorem overall_score_le_100 (c l b s : Nat) (hc : c ≤ 100) (hl : l ≤ 100) (hb : b ≤ 100)
    (hs : s ≤ 100) : _calculate_overall_score c l b s ≤ 100 := by
  have h := overallT4_close c l b s hc hl hb hs
  unfold _calculate_overall_score
  omega

theorem scoresList_keys (t : List Char) :
    (scoresList t).map Prod.fst = categoriesTable.map Prod.fst := by
  unfold scoresList
  rw [List.map_map]
  exact List.map_congr_left (fun ck _ => rfl)

/-!
Claim theorems.
-/

/-- C2: for every input text the content-risk calculator accumulates
`score += matches * weight * base_score` and `total_matches += matches` over
all tier/pattern pairs (case-insensitive regex match counts); it returns the
fixed default 10 when `total_matches = 0` and otherwise
`floor(score / total_matches)` clamped above at 100. -/
theorem c2_content_risk_formula (t : List Char) :
    _calculate_content_risk t =
      if contentMatchTotal t = 0 then 10
      else min 100 (contentScoreSum t / contentMatchTotal t) := by
  simp only [_calculate_content_risk]
  rw [content_outer_fold]
  simp only [Nat.zero_add]
  rfl

/-- C4: for every input text, `legal_risk = min(100, 20 * n)` where `n` is the
number of `(factor, keyword)` pairs of the legal table whose keyword is a
literal case-sensitive substring of the text; brand risk uses increment 15
over the brand table and social risk increment 10 over the social table, each
result lying in `[0, 100]`. -/
theorem c4_factor_risk_formula (t : List Char) :
    _calculate_legal_risk t = min 100 (20 * pairCount legal_risk_factors t) ∧
    _calculate_brand_risk t = min 100 (15 * pairCount brand_risk_factors t) ∧
    _calculate_social_risk t = min 100 (10 * pairCount social_risk_factors t) := by
  unfold _calculate_legal_risk _calculate_brand_risk _calculate_social_risk
  rw [keywordScore_eq, keywordScore_eq, keywordScore_eq]
  exact ⟨rfl, rfl, rfl⟩

/-- C9: for every input string, `_identify_category` returns one of the keys
of its hard-coded category table (whose first key in `main.py` is
`極めて危険な表現`), even when every category count is zero; in particular the
trailing `その他` fallback is never returned, because the table is non-empty
and the `max` over `category_scores` always succeeds. -/
theorem c9_category_total (t : List Char) :
    _identify_category t ∈ categoriesTable.map Prod.fst ∧
    _identify_category t ≠ "その他" := by
  have hmem : _identify_category t ∈ categoriesTable.map Prod.fst := by
    unfold _identify_category
    cases hs : scoresList t with
    | nil => exfalso; simp [scoresList, categoriesTable] at hs
    | cons x xs =>
      have h := pymaxFold_mem xs x
      rw [← hs] at h
      have h2 : (pymaxFold x xs).1 ∈ (scoresList t).map Prod.fst :=
        List.mem_map_of_mem Prod.fst h
      rw [scoresList_keys] at h2
      exact h2
  refine ⟨hmem, fun heq => ?_⟩
  have hnot : ("その他" : String) ∉ categoriesTable.map Prod.fst := by decide
  rw [heq] at hmem
  exact hnot hmem

/-- C6: for every input text in which two or more categories attain the
maximal keyword-hit count, `_identify_category` returns the first such
category in table-declaration order: it equals the key of the first entry of
the scored list (in declaration order) whose count is maximal.  Determinism
is immediate since the classifier is a function of the text. -/
theorem c6_tie_break (t : List Char)
    (_h : 2 ≤ (scoresList t).countP (fun p => decide (∀ q ∈ scoresList t, q.2 ≤ p.2))) :
    ∃ p, (scoresList t).find? (fun p => decide (∀ q ∈ scoresList t, q.2 ≤ p.2)) = some p ∧
      _identify_category t = p.1 := by
  cases hs : scoresList t with
  | nil => exfalso; simp [scoresList, categoriesTable] at hs
  | cons x xs =>
    refine ⟨pymaxFold x xs, ?_, ?_⟩
    · have hcong : ∀ a ∈ x :: xs,
          (fun p => decide (∀ q ∈ x :: xs, q.2 ≤ p.2)) a
            = (fun p => decide ((pymaxFold x xs).2 ≤ p.2)) a := by
        intro a _
        apply decide_eq_decide.mpr
        constructor
        · intro hall
          exact hall _ (pymaxFold_mem xs x)
        · intro hle q hq
          exact le_trans (pymaxFold_is_max xs x q hq) hle
      rw [find?_congr_pred _ _ _ hcong]
      exact pymaxFold_first xs x
    · unfold _identify_category
      rw [hs]

/-- C6 witness: on the text `住所残業` the categories `個人情報漏洩` and
`労働問題` both attain the maximal count 1, and the classifier returns the
earlier one in declaration order. -/
theorem c6_tie_break_witness :
    ∃ p, (scoresList "住所残業".toList).find?
        (fun p => decide (∀ q ∈ scoresList "住所残業".toList, q.2 ≤ p.2)) = some p ∧
      _identify_category "住所残業".toList = p.1 :=
  c6_tie_break "住所残業".toList (by decide)

/-- C1 counterexample: on the empty text every category count is zero, yet
`_identify_category` returns `極めて危険な表現` (the first key of the table),
not the claimed fallback `その他`. -/
theorem c1_counterexample :
    _identify_category "".toList = "極めて危険な表現" ∧
    _identify_category "".toList ≠ "その他" := by
  constructor <;> decide

/-- C1 amended: for every input text in which none of the category
classifier's keywords occurs as a substring (in particular the empty text),
`_identify_category` returns the first category in table-declaration order,
`極めて危険な表現`, because all counts are zero and Python's `max` keeps the
first maximal key; the `その他` fallback would require an empty table and is
unreachable. -/
theorem c1_amended (t : List Char)
    (h : ∀ c ∈ categoriesTable, ∀ kw ∈ c.2, occursIn kw t = false) :
    _identify_category t = "極めて危険な表現" := by
  have hscore : ∀ c ∈ categoriesTable, categoryScore c.2 t = 0 := by
    intro c hc
    unfold categoryScore
    rw [keywordFold_eq]
    have : c.2.countP (fun kw => occursIn kw t) = 0 := by
      apply List.countP_eq_zero.mpr
      intro kw hkw
      simp [h c hc kw hkw]
    rw [this]
  have hall : ∀ p ∈ scoresList t, p.2 = 0 := by
    intro p hp
    unfold scoresList at hp
    rcases List.mem_map.mp hp with ⟨ck, hck, hpe⟩
    rw [← hpe]
    exact hscore ck hck
  cases hs : scoresList t with
  | nil => exfalso; simp [scoresList, categoriesTable] at hs
  | cons x xs =>
    have hxmem : x ∈ scoresList t := by rw [hs]; exact List.mem_cons_self _ _
    have hle : ∀ p ∈ xs, p.2 ≤ x.2 := by
      intro p hp
      rw [hall p (by rw [hs]; exact List.mem_cons_of_mem _ hp), hall x hxmem]
    have hid : _identify_category t = (pymaxFold x xs).1 := by
      unfold _identify_category
      rw [hs]
    rw [hid, pymaxFold_of_all_le xs x hle]
    have hhead : (scoresList t).head? = some x := by rw [hs]; rfl
    simp only [scoresList, categoriesTable, List.map_cons, List.head?_cons] at hhead
    have := Option.some.inj hhead
    rw [← this]

/-- C1 amended witness: the empty text satisfies the no-keyword hypothesis and
the classifier returns `極めて危険な表現`. -/
theorem c1_amended_witness : _identify_category "".toList = "極めて危険な表現" :=
  c1_amended "".toList (by decide)

/-- C7: for every text `t` and trigger keyword `kw` of the legal, brand or
social table that already occurs in `t`, appending one more occurrence of
`kw` to `t` never decreases the corresponding factor score (monotone up to
the 100 clamp). -/
theorem c7_monotonicity :
    (∀ (t : List Char) (kw : String), occursIn kw t = true →
      (∃ f ∈ legal_risk_factors, kw ∈ f.2) →
      _calculate_legal_risk t ≤ _calculate_legal_risk (t ++ kw.toList)) ∧
    (∀ (t : List Char) (kw : String), occursIn kw t = true →
      (∃ f ∈ brand_risk_factors, kw ∈ f.2) →
      _calculate_brand_risk t ≤ _calculate_brand_risk (t ++ kw.toList)) ∧
    (∀ (t : List Char) (kw : String), occursIn kw t = true →
      (∃ f ∈ social_risk_factors, kw ∈ f.2) →
      _calculate_social_risk t ≤ _calculate_social_risk (t ++ kw.toList)) := by
  refine ⟨fun t kw _ _ => ?_, fun t kw _ _ => ?_, fun t kw _ _ => ?_⟩ <;>
    exact min_le_min (le_refl 100) (keywordScore_append_le _ _ t kw.toList)

/-- C7 witness: appending a second occurrence of an already-present trigger
keyword (`残業` legal, `クソ` brand, `やばい` social) does not decrease the
respective factor score. -/
theorem c7_monotonicity_witness :
    _calculate_legal_risk "残業だ".toList ≤
      _calculate_legal_risk ("残業だ".toList ++ "残業".toList) ∧
    _calculate_brand_risk "クソだ".toList ≤
      _calculate_brand_risk ("クソだ".toList ++ "クソ".toList) ∧
    _calculate_social_risk "やばいよ".toList ≤
      _calculate_social_risk ("やばいよ".toList ++ "やばい".toList) :=
  ⟨c7_monotonicity.1 "残業だ".toList "残業" (by decide)
      ⟨("労働基準法", ["残業", "給料", "労働", "働く", "従業員"]), by decide, by decide⟩,
   c7_monotonicity.2.1 "クソだ".toList "クソ" (by decide)
      ⟨("企業イメージ", ["クソ", "くそ", "最悪", "ひどい", "ダメ", "だめ", "殺害", "殺す", "死ね", "暴力"]),
        by decide, by decide⟩,
   c7_monotonicity.2.2 "やばいよ".toList "やばい" (by decide)
      ⟨("炎上拡散", ["やばい", "最悪", "ひどい", "問題", "殺害", "殺す", "死ね", "暴力"]),
        by decide, by decide⟩⟩

/-- C8: for every input text all four factor scores and the overall score of
`analyze_text` lie in `[0, 100]` and the confidence lies in `[0, 1]`; every
calculator is a total function, intermediate sums exceeding 100 are recovered
by clamping rather than by raising an exception. -/
theorem c8_bounds (t : List Char) :
    (analyze_text t).content_risk ≤ 100 ∧
    (analyze_text t).legal_risk ≤ 100 ∧
    (analyze_text t).brand_risk ≤ 100 ∧
    (analyze_text t).social_risk ≤ 100 ∧
    (analyze_text t).overall_score ≤ 100 ∧
    0 ≤ (analyze_text t).confidence ∧ (analyze_text t).confidence ≤ 1 := by
  simp only [analyze_text]
  refine ⟨content_risk_le_100 t, legal_risk_le_100 t, brand_risk_le_100 t,
    social_risk_le_100 t, ?_, (confidence_bounds t).1, (confidence_bounds t).2⟩
  exact overall_score_le_100 _ _ _ _ (content_risk_le_100 t) (legal_risk_le_100 t)
    (brand_risk_le_100 t) (social_risk_le_100 t)

/-- C10: for every input text (including the empty string) and every
enumeration order `u` of the deduplicated raw keyword list,
`extract_keywords_advanced` returns a non-empty list of at most 15 keywords —
every category label of the pattern table is appended unconditionally, so the
priority partition always contains `差別的表現` — and consequently the
no-keyword fallback branch of `search_related_cases` is never taken. -/
theorem c10_keywords (t : List Char) (u : List String)
    (hperm : u.Perm (rawKeywords t).dedup) :
    selectKeywords u ≠ [] ∧ (selectKeywords u).length ≤ 15 ∧
    search_uses_fallback (selectKeywords u) = false ∧
    extract_keywords_advanced t ≠ [] ∧ (extract_keywords_advanced t).length ≤ 15 := by
  have main : ∀ v : List String, v.Perm (rawKeywords t).dedup →
      selectKeywords v ≠ [] ∧ (selectKeywords v).length ≤ 15 ∧
      search_uses_fallback (selectKeywords v) = false := by
    intro v hv
    have hmem : ("差別的表現" : String) ∈ v :=
      hv.mem_iff.mpr (List.mem_dedup.mpr (sabetsu_mem_raw t))
    have hfil : ("差別的表現" : String) ∈ v.filter isPriorityKw :=
      List.mem_filter.mpr ⟨hmem, by decide⟩
    have hne : v.filter isPriorityKw ≠ [] := List.ne_nil_of_mem hfil
    have hsel : selectKeywords v ≠ [] := by
      unfold selectKeywords
      intro hcon
      rw [List.take_eq_nil_iff] at hcon
      rcases hcon with hcon | hcon
      · exact absurd hcon (by norm_num)
      · rcases List.append_eq_nil.mp hcon with ⟨h1, _⟩
        rw [List.take_eq_nil_iff] at h1
        rcases h1 with h1 | h1
        · exact absurd h1 (by norm_num)
        · exact hne h1
    refine ⟨hsel, ?_, ?_⟩
    · unfold selectKeywords
      rw [List.length_take]
      exact Nat.min_le_left _ _
    · unfold search_uses_fallback searchConditions
      cases hsk : selectKeywords v with
      | nil => exact absurd hsk hsel
      | cons a as => simp
  obtain ⟨h1, h2, h3⟩ := main u hperm
  have he := main ((rawKeywords t).dedup) (List.Perm.refl _)
  exact ⟨h1, h2, h3, he.1, he.2.1⟩

/-- C10 witness: on the empty text, with the canonical `dedup` enumeration
order, the extracted keyword list is non-empty, has at most 15 entries and the
fallback branch is not taken. -/
theorem c10_keywords_witness :
    selectKeywords ((rawKeywords "".toList).dedup) ≠ [] ∧
    (selectKeywords ((rawKeywords "".toList).dedup)).length ≤ 15 ∧
    search_uses_fallback (selectKeywords ((rawKeywords "".toList).dedup)) = false ∧
    extract_keywords_advanced "".toList ≠ [] ∧
    (extract_keywords_advanced "".toList).length ≤ 15 :=
  c10_keywords "".toList ((rawKeywords "".toList).dedup) (List.Perm.refl _)

/-- C5 counterexample: at factor scores `(content, legal, brand, social) =
(0, 3, 0, 1)` the exact weighted sum `0.4*0 + 0.3*3 + 0.2*0 + 0.1*1` is `1.0`
and the claimed clamped floor is `1`, but the binary64 evaluation is
`0.9999999999999999` (the product `3 * 0.3` falls on a rounding tie that
ties-to-even resolves downward), so the aggregator returns `0`. -/
theorem c5_counterexample :
    _calculate_overall_score 0 3 0 1 = 0 ∧ (4 * 0 + 3 * 3 + 2 * 0 + 1 * 1) / 10 = 1 := by
  constructor
  · decide
  · norm_num

/-- C5 amended: for all integer factor scores in `[0, 100]` the aggregator
returns the truncated binary64 evaluation of
`0.4*content + 0.3*legal + 0.2*brand + 0.1*social`; this value lies in
`[0, 100]`, equals `floor((4c + 3l + 2b + s)/10)` whenever that weighted sum
is not an exact integer, and in the exact-integer case equals the floor or
falls one short of it (as at `(0, 3, 0, 1)`). -/
theorem c5_amended (c l b s : Nat) (hc : c ≤ 100) (hl : l ≤ 100) (hb : b ≤ 100)
    (hs : s ≤ 100) :
    (_calculate_overall_score c l b s = (4 * c + 3 * l + 2 * b + s) / 10 ∨
      _calculate_overall_score c l b s + 1 = (4 * c + 3 * l + 2 * b + s) / 10) ∧
    _calculate_overall_score c l b s ≤ 100 ∧
    ((4 * c + 3 * l + 2 * b + s) % 10 ≠ 0 →
      _calculate_overall_score c l b s = (4 * c + 3 * l + 2 * b + s) / 10) := by
  have h := overallT4_close c l b s hc hl hb hs
  unfold _calculate_overall_score
  omega

/-- C5 amended witness: at `(0, 3, 0, 1)` the aggregator returns one less than
the exact floor, within the bounds stated by the amended claim. -/
theorem c5_amended_witness :
    (_calculate_overall_score 0 3 0 1 = (4 * 0 + 3 * 3 + 2 * 0 + 1 * 1) / 10 ∨
      _calculate_overall_score 0 3 0 1 + 1 = (4 * 0 + 3 * 3 + 2 * 0 + 1 * 1) / 10) ∧
    _calculate_overall_score 0 3 0 1 ≤ 100 ∧
    ((4 * 0 + 3 * 3 + 2 * 0 + 1 * 1) % 10 ≠ 0 →
      _calculate_overall_score 0 3 0 1 = (4 * 0 + 3 * 3 + 2 * 0 + 1 * 1) / 10) :=
  c5_amended 0 3 0 1 (by norm_num) (by norm_num) (by norm_num) (by norm_num)

theorem confidence_korosu : _calculate_confidence "殺す".toList = 11 / 100 := by
  simp only [_calculate_confidence]
  rw [show keywordCountCalc "殺す".toList = 1 from by decide]
  rw [show ("殺す".toList.length) = 2 from by decide]
  rw [min_eq_right (by norm_num : ((2 : Nat) : ℚ) / 100 ≤ 1),
      min_eq_right (by norm_num : ((1 : Nat) : ℚ) / 5 ≤ 1)]
  unfold round2
  rw [show ((((2 : Nat) : ℚ) / 100 + ((1 : Nat) : ℚ) / 5) / 2) * 100 = ((11 : Nat) : ℚ) from by
    push_cast; norm_num]
  rw [round_natCast]
  push_cast
  norm_num

theorem confidence_korosu_jusho :
    _calculate_confidence "殺す住所残業".toList = 33 / 100 := by
  simp only [_calculate_confidence]
  rw [show keywordCountCalc "殺す住所残業".toList = 3 from by decide]
  rw [show ("殺す住所残業".toList.length) = 6 from by decide]
  rw [min_eq_right (by norm_num : ((6 : Nat) : ℚ) / 100 ≤ 1),
      min_eq_right (by norm_num : ((3 : Nat) : ℚ) / 5 ≤ 1)]
  simp only [round2]
  rw [show ((((6 : Nat) : ℚ) / 100 + ((3 : Nat) : ℚ) / 5) / 2) * 100 = ((33 : Nat) : ℚ) from by
    push_cast; norm_num]
  rw [round_natCast]
  push_cast
  norm_num

theorem recs_korosu :
    get_recommendations (analyze_text "殺す".toList) =
      ["コンテンツの全面的な見直しが必要", "分析の信頼度が低いため、より詳細な分析を推奨"] := by
  unfold get_recommendations
  simp only [analyze_text]
  simp only [show _calculate_content_risk "殺す".toList = 100 from by decide,
      show _calculate_legal_risk "殺す".toList = 20 from by decide,
      show _calculate_brand_risk "殺す".toList = 15 from by decide,
      show _calculate_social_risk "殺す".toList = 10 from by decide,
      confidence_korosu]
  norm_num

theorem recs_korosu_jusho :
    get_recommendations (analyze_text "殺す住所残業".toList) =
      ["法的リスクが高いため、法務部門との相談を推奨", "コンテンツの全面的な見直しが必要",
       "分析の信頼度が低いため、より詳細な分析を推奨"] := by
  unfold get_recommendations
  simp only [analyze_text]
  simp only [show _calculate_content_risk "殺す住所残業".toList = 100 from by decide,
      show _calculate_legal_risk "殺す住所残業".toList = 60 from by decide,
      show _calculate_brand_risk "殺す住所残業".toList = 15 from by decide,
      show _calculate_social_risk "殺す住所残業".toList = 10 from by decide,
      confidence_korosu_jusho]
  norm_num

/-- C3 counterexample: the text `殺す` contains the kill-threat term, yet the
engine produces `content_risk = 100` (not a value near 95: the single extreme
match gives `380/1` clamped to 100) and, because `殺す` contributes only 20
legal points while the advisory threshold is 60, the legal-review advisory is
not emitted. -/
theorem c3_counterexample :
    occursIn "殺す" "殺す".toList = true ∧
    (analyze_text "殺す".toList).content_risk = 100 ∧
    "法的リスクが高いため、法務部門との相談を推奨" ∉
      get_recommendations (analyze_text "殺す".toList) := by
  refine ⟨by decide, ?_, ?_⟩
  · simp only [analyze_text]
    decide
  · rw [recs_korosu]
    decide

/-- C3 amended: for every input text containing `殺す` the extreme-risk tier's
kill-threat pattern matches at least once and the legal keyword table
contributes at least 20 legal points; on the text `殺す` itself the engine
returns `content_risk = 100` (the clamped weighted value `4.0 * 95 = 380`),
classifies it as `極めて危険な表現`, and emits no legal-review advisory since
`legal_risk = 20 < 60`; the advisory appears once enough legal keywords
accumulate, e.g. on `殺す住所残業` where `legal_risk = 60`. -/
theorem c3_amended :
    (∀ t : List Char, occursIn "殺す" t = true →
      1 ≤ countMatches true (pats ["殺害", "殺す", "死ね", "死ぬ", "殺人", "殺し", "殺して", "殺せ"]) t ∧
      20 ≤ _calculate_legal_risk t) ∧
    (analyze_text "殺す".toList).content_risk = 100 ∧
    (analyze_text "殺す".toList).category = "極めて危険な表現" ∧
    (analyze_text "殺す".toList).legal_risk = 20 ∧
    "法的リスクが高いため、法務部門との相談を推奨" ∈
      get_recommendations (analyze_text "殺す住所残業".toList) ∧
    (analyze_text "殺す住所残業".toList).legal_risk = 60 := by
  refine ⟨?_, ?_, ?_, ?_, ?_, ?_⟩
  · intro t hocc
    constructor
    · unfold countMatches findall
      apply scanAux_nonempty true _ t.length t (le_refl _)
      have hinf : "殺す".toList <:+: t := (containsSub_true_iff _ t).mp hocc
      rcases hinf with ⟨u, w, heq⟩
      refine ⟨u, "殺す".toList ++ w, ?_, "殺す".toList, ?_, by decide, ?_⟩
      · rw [← heq, List.append_assoc]
      · decide
      · unfold altMatch lowerList
        rw [if_pos rfl, List.map_append]
        exact List.isPrefixOf_iff_prefix.mpr (List.prefix_append _ _)
    · unfold _calculate_legal_risk
      rw [keywordScore_eq]
      have hcnt : 0 < List.countP (fun kw => occursIn kw t)
          ["殺害", "殺す", "死ね", "死ぬ", "殺人", "暴力", "暴行", "殴る", "蹴る"] := by
        apply List.countP_pos_iff.mpr
        exact ⟨"殺す", by decide, by simpa using hocc⟩
      have hmem : List.countP (fun kw => occursIn kw t)
            ["殺害", "殺す", "死ね", "死ぬ", "殺人", "暴力", "暴行", "殴る", "蹴る"]
          ∈ legal_risk_factors.map (fun f => f.2.countP (fun kw => occursIn kw t)) :=
        List.mem_map_of_mem _ (show ("脅迫罪",
            ["殺害", "殺す", "死ね", "死ぬ", "殺人", "暴力", "暴行", "殴る", "蹴る"])
          ∈ legal_risk_factors from by decide)
      have hpair : 1 ≤ pairCount legal_risk_factors t := by
        unfold pairCount
        calc 1 ≤ _ := hcnt
          _ ≤ _ := List.single_le_sum (fun x _ => Nat.zero_le x) _ hmem
      omega
  · simp only [analyze_text]
    decide
  · simp only [analyze_text]
    decide
  · simp only [analyze_text]
    decide
  · rw [recs_korosu_jusho]
    decide
  · simp only [analyze_text]
    decide

/-- C3 amended witness: the universally quantified part instantiated at the
text `殺す` itself. -/
theorem c3_amended_witness :
    1 ≤ countMatches true
        (pats ["殺害", "殺す", "死ね", "死ぬ", "殺人", "殺し", "殺して", "殺せ"]) "殺す".toList ∧
    20 ≤ _calculate_legal_risk "殺す".toList :=
  c3_amended.1 "殺す".toList (by decide)
